import Mathlib

/-!
Verification model of the `rust-server` thread pool (`src/lib.rs`).

The pool consists of:
  * `ThreadPool { workers : Vec<Worker>, sender : Option<mpsc::Sender<Job>> }`
  * `Worker { id : usize, thread : Option<JoinHandle<()>> }`
  * `ThreadPool::new(size)` which asserts `size > 0`, creates the channel and
    spawns `size` workers with ids `0..size`;
  * `ThreadPool::execute(f)` which unwraps the sender and sends the boxed job;
  * `Drop for ThreadPool` which drops the sender first and then joins each
    worker in construction order, `take()`-ing each worker's thread handle;
  * the worker loop `loop { let message = receiver.lock().unwrap().recv();
    match message { Ok(job) => job(), Err(_) => break } }`.

Rust panics in this code are modelled as `Except` errors using the spec's
error taxonomy: the `assert!(size > 0)` panic in `new` is
`InvalidConfiguration`, the `unwrap` of an absent sender in `execute` is
`PoolClosed`, and the `unwrap` of a failed `join` in `drop` is
`WorkerJoinFailure`.

Two views of the code are formalised:
  * a sequential functional model of the pool-side API (`ThreadPool.new`,
    the drop/join loop `joinWorkers` / `ThreadPool.dropRun`), and
  * a small-step transition system `Step` over `SysState` capturing the
    interleaved behaviour of submitters, the worker threads and shutdown,
    including the mutex discipline of the shared receiver (the `MutexGuard`
    returned by `receiver.lock().unwrap()` is a temporary that is dropped at
    the end of the `let` statement, i.e. before the received job runs).
-/

namespace RustServer

/-- The spec's error taxonomy for this pool; each constructor names one of
the three panic sites of `src/lib.rs`. -/
inductive PoolError
  | InvalidConfiguration
  | PoolClosed
  | WorkerJoinFailure
deriving DecidableEq, Repr

/-- Abstract view of a `std::thread::JoinHandle<()>`: the only observable
the pool-side code uses is whether `join()` returns `Ok` (the thread
terminated normally) or `Err` (the thread panicked while running a job).
`joinOk` records that outcome. -/
structure JoinHandle where
  joinOk : Bool
deriving DecidableEq, Repr

/-- `Worker { id: usize, thread: Option<thread::JoinHandle<()>> }`. -/
structure Worker where
  id : Nat
  thread : Option JoinHandle
deriving DecidableEq, Repr

/-- `Worker::new(id, receiver)`: spawns the worker thread and stores it as
`Some(thread)`.  A freshly spawned thread has not faulted, so its handle is
recorded as joinable. -/
def Worker.new (id : Nat) : Worker :=
  { id := id, thread := some { joinOk := true } }

/-- `ThreadPool { workers: Vec<Worker>, sender: Option<mpsc::Sender<Job>> }`;
`senderPresent` is whether the `sender` field is `Some`. -/
structure ThreadPool where
  workers : List Worker
  senderPresent : Bool
deriving DecidableEq, Repr

/-- `ThreadPool::new(size)`: `assert!(size > 0)` (modelled as the
`InvalidConfiguration` failure, raised before any worker is created), then
`for id in 0..size { workers.push(Worker::new(id, ...)) }` and
`sender: Some(sender)`. -/
def ThreadPool.new (size : Nat) : Except PoolError ThreadPool :=
  if 0 < size then
    .ok { workers := (List.range size).map Worker.new, senderPresent := true }
  else
    .error .InvalidConfiguration

/-- The loop body of `Drop for ThreadPool` over the worker vector:
`if let Some(thread) = worker.thread.take() { thread.join().unwrap(); }`.
Returns the updated workers, the ids of workers successfully joined (in
order), and the error if some `join().unwrap()` panicked.  A failed join
aborts the loop: workers after the failing one are left untouched, with
their thread handles still present. -/
def joinWorkers : List Worker → List Worker × List Nat × Option PoolError
  | [] => ([], [], none)
  | w :: ws =>
    match w.thread with
    | none => -- handle already taken: `if let` does not fire, no join
      let (ws', ids, e) := joinWorkers ws
      (w :: ws', ids, e)
    | some h =>
      if h.joinOk then
        let (ws', ids, e) := joinWorkers ws
        ({ w with thread := none } :: ws', w.id :: ids, e)
      else
        -- `thread.join().unwrap()` panics: the loop is abandoned here
        ({ w with thread := none } :: ws, [], some .WorkerJoinFailure)

/-- `<ThreadPool as Drop>::drop`: `drop(self.sender.take())` first (the
sender becomes absent whatever happens next), then the join loop over the
workers in construction order. -/
def ThreadPool.dropRun (p : ThreadPool) : ThreadPool × List Nat × Option PoolError :=
  let (ws, ids, e) := joinWorkers p.workers
  ({ workers := ws, senderPresent := false }, ids, e)

/-! ## Small-step transition system

Jobs are identified by natural-number labels; a `Job` in the code is opaque
(`Box<dyn FnOnce()>`), so only its identity matters for delivery claims. -/

/-- Local state of one worker thread, read off the loop in `Worker::new`:

```text
loop {
    let message = receiver.lock().unwrap().recv();   -- lock; recv; guard dropped
    match message { Ok(job) => { job(); }  Err(_) => break }
}
```

`running` is the loop top (about to lock), `claiming` holds the receiver
mutex inside `recv`, `executing j` runs job `j` with the guard already
dropped (the guard is a temporary of the `let` statement), `terminated` has
broken out of the loop. -/
inductive WStatus
  | running
  | claiming
  | executing (j : Nat)
  | terminated
deriving DecidableEq, Repr

/-- Global state of the interleaved system: worker statuses in construction
order, the channel's FIFO buffer, whether the pool still holds the sender,
the history of submitted and of completed job labels, and the progress of
the pool's drop loop (`dropStarted` once `self.sender.take()` has run,
`joined` counts workers already joined). -/
structure SysState where
  wstatus : List WStatus
  queue : List Nat
  senderPresent : Bool
  submitted : List Nat
  executed : List Nat
  dropStarted : Bool
  joined : Nat
deriving DecidableEq, Repr

/-- State right after `ThreadPool::new(size)` returns (for `0 < size`):
every worker at its loop top, empty channel, sender held by the pool. -/
def initState (size : Nat) : SysState :=
  { wstatus := List.replicate size .running
    queue := []
    senderPresent := true
    submitted := []
    executed := []
    dropStarted := false
    joined := 0 }

/-- `ThreadPool::execute(f)` as a function of the system state:
`self.sender.as_ref().unwrap()` panics when the sender is absent (the
`PoolClosed` failure of the spec), otherwise `sender.send(job).unwrap()`
appends the job to the channel's FIFO buffer and never blocks (the channel
is unbounded). -/
def executeFn (s : SysState) (j : Nat) : Except PoolError SysState :=
  if s.senderPresent then
    .ok { s with queue := s.queue ++ [j], submitted := s.submitted ++ [j] }
  else
    .error .PoolClosed

/-- One interleaving step of the system.  Worker indices are positions in
`wstatus` (construction order).

* `submit`: a caller thread runs `execute` while the sender is present.
* `close`: the pool's drop begins: `drop(self.sender.take())`.
* `lock`: a worker at its loop top acquires the receiver mutex; enabled
  only when no other worker holds it.
* `recvOk`: `recv()` returns `Ok(job)` with the queue's head; the guard is
  dropped and the worker starts running the job.
* `recvErr`: `recv()` returns `Err` — only when the buffer is empty and the
  sender has been dropped; the worker breaks out of its loop.
* `finish`: the running job returns; its label is appended to `executed`
  and the worker goes back to the loop top.
* `joinW`: the drop loop joins the next worker in construction order; the
  blocking `join()` returns only once that worker's thread has terminated. -/
inductive Step : SysState → SysState → Prop
  | submit (s : SysState) (j : Nat) :
      s.senderPresent = true →
      Step s { s with queue := s.queue ++ [j], submitted := s.submitted ++ [j] }
  | close (s : SysState) :
      s.dropStarted = false →
      Step s { s with senderPresent := false, dropStarted := true }
  | lock (s : SysState) (i : Nat) :
      s.wstatus[i]? = some .running →
      (∀ k : Nat, s.wstatus[k]? ≠ some WStatus.claiming) →
      Step s { s with wstatus := s.wstatus.set i .claiming }
  | recvOk (s : SysState) (i j : Nat) (rest : List Nat) :
      s.wstatus[i]? = some .claiming →
      s.queue = j :: rest →
      Step s { s with wstatus := s.wstatus.set i (.executing j), queue := rest }
  | recvErr (s : SysState) (i : Nat) :
      s.wstatus[i]? = some .claiming →
      s.queue = [] →
      s.senderPresent = false →
      Step s { s with wstatus := s.wstatus.set i .terminated }
  | finish (s : SysState) (i j : Nat) :
      s.wstatus[i]? = some (.executing j) →
      Step s { s with wstatus := s.wstatus.set i .running,
                      executed := s.executed ++ [j] }
  | joinW (s : SysState) :
      s.dropStarted = true →
      s.joined < s.wstatus.length →
      s.wstatus[s.joined]? = some .terminated →
      Step s { s with joined := s.joined + 1 }

/-- States reachable from a fresh pool of the given size. -/
def Reachable (size : Nat) (s : SysState) : Prop :=
  Relation.ReflTransGen Step (initState size) s

/-- The pool's drop has returned: the sender was taken and every worker was
joined. -/
def ShutdownComplete (s : SysState) : Prop :=
  s.dropStarted = true ∧ s.joined = s.wstatus.length

/-- The multiset of job labels a worker currently holds in flight. -/
def WStatus.jobs : WStatus → Multiset Nat
  | .executing j => {j}
  | _ => 0

/-- Job labels currently running on some worker thread. -/
def inFlight (l : List WStatus) : Multiset Nat :=
  (l.map WStatus.jobs).sum

/-! ## Basic list/multiset helpers -/

theorem getElem?_lt {α : Type} (l : List α) (n : Nat) (a : α)
    (h : l[n]? = some a) : n < l.length := by
  rw [List.getElem?_eq_some] at h
  exact h.1

theorem coe_append_singleton (l : List Nat) (j : Nat) :
    ((l ++ [j] : List Nat) : Multiset Nat) = (l : Multiset Nat) + {j} := by
  rw [← Multiset.coe_add]
  norm_cast

theorem coe_cons_head (j : Nat) (rest : List Nat) :
    ((j :: rest : List Nat) : Multiset Nat) = {j} + (rest : Multiset Nat) := rfl

theorem inFlight_set (l : List WStatus) (i : Nat) (w w' : WStatus)
    (h : l[i]? = some w) :
    inFlight (l.set i w') + w.jobs = inFlight l + w'.jobs := by
  induction l generalizing i with
  | nil => simp at h
  | cons x xs ih =>
    cases i with
    | zero =>
      simp at h
      subst h
      simp [inFlight, List.set]
      abel
    | succ n =>
      simp at h
      have hih := ih n h
      simp only [List.set, inFlight, List.map_cons, List.sum_cons] at hih ⊢
      rw [add_assoc, hih, add_assoc]

theorem inFlight_all_terminated (l : List WStatus)
    (h : ∀ w ∈ l, w = WStatus.terminated) : inFlight l = 0 := by
  induction l with
  | nil => rfl
  | cons x xs ih =>
    have hx := h x (by simp)
    subst hx
    simp only [inFlight, List.map_cons, List.sum_cons] at *
    rw [ih fun w hw => h w (by simp [hw])]
    rfl

/-! ## The system invariant -/

/-- Inductive invariant of the transition system, proved for every
reachable state:

* `wlen`: the worker count is fixed at `size`;
* `sender_drop`: the sender is present exactly until the drop takes it;
* `joined_le`, `joined_term`: the drop loop joined a prefix of the workers
  in construction order, each only once its thread had terminated;
* `mutex`: at most one worker holds the receiver mutex;
* `balance`: every submitted job is accounted for exactly once — finished,
  currently running on some worker, or still buffered in the channel;
* `term_drop`: a worker can only have terminated after the drop began;
* `allterm_queue`: once every worker has terminated the buffer is empty. -/
structure Inv (size : Nat) (s : SysState) : Prop where
  wlen : s.wstatus.length = size
  sender_drop : s.senderPresent = !s.dropStarted
  joined_le : s.joined ≤ size
  joined_term : ∀ i : Nat, i < s.joined → s.wstatus[i]? = some .terminated
  mutex : ∀ i k : Nat, s.wstatus[i]? = some .claiming →
    s.wstatus[k]? = some .claiming → i = k
  balance : (s.submitted : Multiset Nat) =
    (s.executed : Multiset Nat) + inFlight s.wstatus + (s.queue : Multiset Nat)
  term_drop : ∀ i : Nat, s.wstatus[i]? = some .terminated → s.dropStarted = true
  allterm_queue : 0 < size →
    (∀ i : Nat, i < size → s.wstatus[i]? = some .terminated) → s.queue = []

theorem inv_init (size : Nat) : Inv size (initState size) := by
  constructor
  case wlen => simp [initState]
  case sender_drop => rfl
  case joined_le => exact Nat.zero_le _
  case joined_term => intro i hi; exact absurd hi (Nat.not_lt_zero i)
  case mutex =>
    intro i k hi _
    simp only [initState] at hi
    rcases Nat.lt_or_ge i size with h | h
    · rw [List.getElem?_replicate_of_lt h] at hi; exact absurd hi (by simp)
    · rw [List.getElem?_eq_none_iff.mpr (by simpa using h)] at hi; exact absurd hi (by simp)
  case balance =>
    simp [initState, inFlight, List.map_replicate, WStatus.jobs, List.sum_replicate]
  case term_drop =>
    intro i hi
    simp only [initState] at hi
    rcases Nat.lt_or_ge i size with h | h
    · rw [List.getElem?_replicate_of_lt h] at hi; exact absurd hi (by simp)
    · rw [List.getElem?_eq_none_iff.mpr (by simpa using h)] at hi; exact absurd hi (by simp)
  case allterm_queue => intro _ _; rfl

theorem inv_step {size : Nat} {s t : SysState} (hs : Inv size s) (hst : Step s t) :
    Inv size t := by
  cases hst with
  | submit j hsend =>
    refine ⟨hs.wlen, hs.sender_drop, hs.joined_le, hs.joined_term, hs.mutex, ?_,
      hs.term_drop, ?_⟩
    · dsimp only
      rw [coe_append_singleton, coe_append_singleton, hs.balance]
      abel
    · intro hpos hall
      have h0 := hall 0 hpos
      have hd := hs.term_drop 0 h0
      have hsd := hs.sender_drop
      rw [hsend, hd] at hsd
      simp at hsd
  | close hnd =>
    refine ⟨hs.wlen, rfl, hs.joined_le, hs.joined_term, hs.mutex, hs.balance,
      fun _ _ => rfl, hs.allterm_queue⟩
  | lock i h1 h2 =>
    have hilen : i < s.wstatus.length := getElem?_lt _ _ _ h1
    refine ⟨?_, hs.sender_drop, hs.joined_le, ?_, ?_, ?_, ?_, ?_⟩
    · dsimp only; rw [List.length_set]; exact hs.wlen
    · intro idx hidx
      have hterm := hs.joined_term idx hidx
      have hne : i ≠ idx := by
        intro he; subst he; rw [h1] at hterm; exact absurd hterm (by simp)
      dsimp only
      rw [List.getElem?_set_ne hne]; exact hterm
    · intro a b ha hb
      dsimp only at ha hb
      have key : ∀ c : Nat, (s.wstatus.set i WStatus.claiming)[c]? =
          some WStatus.claiming → c = i := by
        intro c hc
        by_cases hci : i = c
        · exact hci.symm
        · rw [List.getElem?_set_ne hci] at hc; exact absurd hc (h2 c)
      rw [key a ha, key b hb]
    · have hset : inFlight (s.wstatus.set i .claiming) = inFlight s.wstatus := by
        have h := inFlight_set s.wstatus i .running .claiming h1
        simpa [WStatus.jobs] using h
      dsimp only
      rw [hset]; exact hs.balance
    · intro k hk
      dsimp only at hk
      by_cases hki : i = k
      · subst hki
        rw [List.getElem?_set_self hilen] at hk
        exact absurd hk (by simp)
      · rw [List.getElem?_set_ne hki] at hk; exact hs.term_drop k hk
    · intro hpos hall
      have hi' : i < size := hs.wlen ▸ hilen
      have := hall i hi'
      dsimp only at this
      rw [List.getElem?_set_self hilen] at this
      exact absurd this (by simp)
  | recvOk i j rest h1 h2 =>
    have hilen : i < s.wstatus.length := getElem?_lt _ _ _ h1
    refine ⟨?_, hs.sender_drop, hs.joined_le, ?_, ?_, ?_, ?_, ?_⟩
    · dsimp only; rw [List.length_set]; exact hs.wlen
    · intro idx hidx
      have hterm := hs.joined_term idx hidx
      have hne : i ≠ idx := by
        intro he; subst he; rw [h1] at hterm; exact absurd hterm (by simp)
      dsimp only
      rw [List.getElem?_set_ne hne]; exact hterm
    · intro a b ha hb
      dsimp only at ha hb
      have key : ∀ c : Nat, (s.wstatus.set i (WStatus.executing j))[c]? =
          some WStatus.claiming → s.wstatus[c]? = some WStatus.claiming ∧ i ≠ c := by
        intro c hc
        by_cases hci : i = c
        · subst hci
          rw [List.getElem?_set_self hilen] at hc
          exact absurd hc (by simp)
        · rw [List.getElem?_set_ne hci] at hc; exact ⟨hc, hci⟩
      exact hs.mutex a b (key a ha).1 (key b hb).1
    · have hset : inFlight (s.wstatus.set i (.executing j)) =
          inFlight s.wstatus + {j} := by
        have h := inFlight_set s.wstatus i .claiming (.executing j) h1
        simpa [WStatus.jobs] using h
      dsimp only
      rw [hset, hs.balance, h2, coe_cons_head]
      abel
    · intro k hk
      dsimp only at hk
      by_cases hki : i = k
      · subst hki
        rw [List.getElem?_set_self hilen] at hk
        exact absurd hk (by simp)
      · rw [List.getElem?_set_ne hki] at hk; exact hs.term_drop k hk
    · intro hpos hall
      have hi' : i < size := hs.wlen ▸ hilen
      have := hall i hi'
      dsimp only at this
      rw [List.getElem?_set_self hilen] at this
      exact absurd this (by simp)
  | recvErr i h1 h2 h3 =>
    have hilen : i < s.wstatus.length := getElem?_lt _ _ _ h1
    have hd : s.dropStarted = true := by
      have hsd := hs.sender_drop
      rw [h3] at hsd
      cases hb : s.dropStarted
      · rw [hb] at hsd; simp at hsd
      · rfl
    refine ⟨?_, hs.sender_drop, hs.joined_le, ?_, ?_, ?_, ?_, ?_⟩
    · dsimp only; rw [List.length_set]; exact hs.wlen
    · intro idx hidx
      have hterm := hs.joined_term idx hidx
      dsimp only
      by_cases hne : i = idx
      · subst hne; rw [List.getElem?_set_self hilen]
      · rw [List.getElem?_set_ne hne]; exact hterm
    · intro a b ha hb
      dsimp only at ha hb
      have key : ∀ c : Nat, (s.wstatus.set i WStatus.terminated)[c]? =
          some WStatus.claiming → s.wstatus[c]? = some WStatus.claiming := by
        intro c hc
        by_cases hci : i = c
        · subst hci
          rw [List.getElem?_set_self hilen] at hc
          exact absurd hc (by simp)
        · rw [List.getElem?_set_ne hci] at hc; exact hc
      exact hs.mutex a b (key a ha) (key b hb)
    · have hset : inFlight (s.wstatus.set i .terminated) = inFlight s.wstatus := by
        have h := inFlight_set s.wstatus i .claiming .terminated h1
        simpa [WStatus.jobs] using h
      dsimp only
      rw [hset]; exact hs.balance
    · intro k _; exact hd
    · intro _ _; exact h2
  | finish i j h1 =>
    have hilen : i < s.wstatus.length := getElem?_lt _ _ _ h1
    refine ⟨?_, hs.sender_drop, hs.joined_le, ?_, ?_, ?_, ?_, ?_⟩
    · dsimp only; rw [List.length_set]; exact hs.wlen
    · intro idx hidx
      have hterm := hs.joined_term idx hidx
      have hne : i ≠ idx := by
        intro he; subst he; rw [h1] at hterm; exact absurd hterm (by simp)
      dsimp only
      rw [List.getElem?_set_ne hne]; exact hterm
    · intro a b ha hb
      dsimp only at ha hb
      have key : ∀ c : Nat, (s.wstatus.set i WStatus.running)[c]? =
          some WStatus.claiming → s.wstatus[c]? = some WStatus.claiming := by
        intro c hc
        by_cases hci : i = c
        · subst hci
          rw [List.getElem?_set_self hilen] at hc
          exact absurd hc (by simp)
        · rw [List.getElem?_set_ne hci] at hc; exact hc
      exact hs.mutex a b (key a ha) (key b hb)
    · have hset : inFlight s.wstatus =
          inFlight (s.wstatus.set i .running) + {j} := by
        have h := inFlight_set s.wstatus i (.executing j) .running h1
        simp [WStatus.jobs] at h
        rw [← h]
      dsimp only
      rw [coe_append_singleton, hs.balance, hset]
      abel
    · intro k hk
      dsimp only at hk
      by_cases hki : i = k
      · subst hki
        rw [List.getElem?_set_self hilen] at hk
        exact absurd hk (by simp)
      · rw [List.getElem?_set_ne hki] at hk; exact hs.term_drop k hk
    · intro hpos hall
      have hi' : i < size := hs.wlen ▸ hilen
      have := hall i hi'
      dsimp only at this
      rw [List.getElem?_set_self hilen] at this
      exact absurd this (by simp)
  | joinW hd hlt hterm =>
    refine ⟨hs.wlen, hs.sender_drop, ?_, ?_, hs.mutex, hs.balance, hs.term_drop,
      hs.allterm_queue⟩
    · dsimp only
      rw [hs.wlen] at hlt
      exact hlt
    · intro idx hidx
      dsimp only at hidx
      rcases Nat.lt_succ_iff_lt_or_eq.mp hidx with h | h
      · exact hs.joined_term idx h
      · subst h; exact hterm

theorem inv_reachable {size : Nat} {s : SysState} (h : Reachable size s) :
    Inv size s := by
  induction h with
  | refl => exact inv_init size
  | tail _ hbc ih => exact inv_step ih hbc

/-! ## Consequences of the invariant -/

theorem allterm_of_shutdown {size : Nat} {s : SysState} (hinv : Inv size s)
    (hsc : ShutdownComplete s) :
    ∀ i : Nat, i < size → s.wstatus[i]? = some .terminated := by
  intro i hi
  apply hinv.joined_term
  rw [hsc.2, hinv.wlen]
  exact hi

theorem executed_eq_submitted_of_allterm {size : Nat} {s : SysState}
    (hinv : Inv size s) (hpos : 0 < size)
    (hall : ∀ i : Nat, i < size → s.wstatus[i]? = some .terminated) :
    (s.executed : Multiset Nat) = (s.submitted : Multiset Nat) := by
  have hq := hinv.allterm_queue hpos hall
  have hin : inFlight s.wstatus = 0 := by
    apply inFlight_all_terminated
    intro w hw
    obtain ⟨i, hi⟩ := List.mem_iff_getElem?.mp hw
    have hlen : i < s.wstatus.length := getElem?_lt _ _ _ hi
    have := hall i (hinv.wlen ▸ hlen)
    rw [hi] at this
    exact Option.some.inj this
  have hb := hinv.balance
  rw [hq, hin] at hb
  simpa using hb.symm

theorem no_claiming_of_all {l : List WStatus}
    (h : ∀ w ∈ l, w ≠ WStatus.claiming) :
    ∀ k : Nat, l[k]? ≠ some WStatus.claiming := by
  intro k hk
  rcases List.mem_iff_getElem?.mpr ⟨k, hk⟩ with hm
  exact h _ hm rfl

/-! ## Claim theorems over the transition system -/

/-- C1: every job submitted before the queue is closed is executed exactly
once: in any reachable state where shutdown has completed, the multiset of
executed job labels equals the multiset of submitted job labels (no job
duplicated, none dropped), so in particular the number of executions equals
the number of submissions, regardless of how many jobs were submitted
relative to the pool size. -/
theorem submitted_jobs_executed_exactly_once {size : Nat} {s : SysState}
    (hpos : 0 < size) (hr : Reachable size s) (hsc : ShutdownComplete s) :
    (s.executed : Multiset Nat) = (s.submitted : Multiset Nat) ∧
      s.executed.length = s.submitted.length := by
  have hinv := inv_reachable hr
  have hall := allterm_of_shutdown hinv hsc
  have heq := executed_eq_submitted_of_allterm hinv hpos hall
  refine ⟨heq, ?_⟩
  have := congrArg Multiset.card heq
  simpa using this

/-- C4: shutdown first releases the producing handle and only then joins the
workers, one by one in construction order; once no worker has been joined
it has already closed the queue, every joined prefix consists of terminated
threads, and when shutdown completes every worker has terminated and every
already-submitted job has finished running. -/
theorem shutdown_closes_then_joins_in_order {size : Nat} {s : SysState}
    (hpos : 0 < size) (hr : Reachable size s) :
    (0 < s.joined → s.dropStarted = true ∧ s.senderPresent = false) ∧
    (∀ i : Nat, i < s.joined → s.wstatus[i]? = some .terminated) ∧
    (ShutdownComplete s →
      (∀ i : Nat, i < size → s.wstatus[i]? = some .terminated) ∧
      (s.executed : Multiset Nat) = (s.submitted : Multiset Nat)) := by
  have hinv := inv_reachable hr
  refine ⟨?_, hinv.joined_term, ?_⟩
  · intro hj
    have hterm := hinv.joined_term 0 hj
    have hd := hinv.term_drop 0 hterm
    refine ⟨hd, ?_⟩
    rw [hinv.sender_drop, hd]
    rfl
  · intro hsc
    have hall := allterm_of_shutdown hinv hsc
    exact ⟨hall, executed_eq_submitted_of_allterm hinv hpos hall⟩

/-- C10: from the moment `ThreadPool::new` returns until the pool's drop
takes the sender, the sender field stays `Some`; therefore every `execute`
call made before shutdown passes the `unwrap` of the sender and enqueues
exactly one job onto the channel (and that very enqueue is an enabled step
of the system). -/
theorem sender_present_before_shutdown {size : Nat} {s : SysState} (j : Nat)
    (hr : Reachable size s) (hnd : s.dropStarted = false) :
    s.senderPresent = true ∧
      executeFn s j =
        .ok { s with queue := s.queue ++ [j], submitted := s.submitted ++ [j] } ∧
      Step s { s with queue := s.queue ++ [j], submitted := s.submitted ++ [j] } := by
  have hinv := inv_reachable hr
  have hsp : s.senderPresent = true := by rw [hinv.sender_drop, hnd]; rfl
  exact ⟨hsp, by simp [executeFn, hsp], Step.submit s j hsp⟩

/-- C6: the receiver mutex is subject to mutual exclusion among claim
operations (at most one worker is inside `recv` at any instant), and it is
never held while a claimed job executes: in a reachable state where some
worker is executing a job and no worker is claiming, any worker at its loop
top can acquire the mutex — an executing worker does not block claims. -/
theorem claim_mutex_never_held_during_execution {size : Nat} {s : SysState}
    (hr : Reachable size s) :
    (∀ i k : Nat, s.wstatus[i]? = some .claiming →
      s.wstatus[k]? = some .claiming → i = k) ∧
    (∀ i k j : Nat, s.wstatus[i]? = some (.executing j) →
      s.wstatus[k]? = some .running →
      (∀ m : Nat, s.wstatus[m]? ≠ some WStatus.claiming) →
      Step s { s with wstatus := s.wstatus.set k .claiming }) := by
  have hinv := inv_reachable hr
  exact ⟨hinv.mutex, fun _ k _ _ hk hno => Step.lock s k hk hno⟩

/-- C5: each worker follows exactly the loop's state machine.  Along any
step of the system a worker's status either stutters or takes one of the
allowed edges: loop top to claim attempt, successful claim (queue head
removed) to executing, job completion (recorded in `executed`) back to the
loop top, or claim attempt to terminated — and the latter only when the
queue is observed empty with the sender gone.  In particular a worker never
leaves `executing j` except by finishing `j`, never holds two jobs, and
`terminated` is absorbing. -/
theorem worker_state_machine {s t : SysState} (hst : Step s t) (i : Nat)
    (ws wt : WStatus) (hws : s.wstatus[i]? = some ws)
    (hwt : t.wstatus[i]? = some wt) :
    wt = ws ∨
    (ws = .running ∧ wt = .claiming) ∨
    (∃ j rest, ws = .claiming ∧ wt = .executing j ∧
      s.queue = j :: rest ∧ t.queue = rest) ∨
    (∃ j, ws = .executing j ∧ wt = .running ∧
      t.executed = s.executed ++ [j]) ∨
    (ws = .claiming ∧ wt = .terminated ∧ s.queue = [] ∧
      s.senderPresent = false) := by
  cases hst with
  | submit j hsend =>
    left; dsimp only at hwt; rw [hws] at hwt; exact (Option.some.inj hwt).symm
  | close hnd =>
    left; dsimp only at hwt; rw [hws] at hwt; exact (Option.some.inj hwt).symm
  | lock i0 h1 h2 =>
    dsimp only at hwt
    by_cases hii : i0 = i
    · subst hii
      rw [h1] at hws
      rw [List.getElem?_set_self (getElem?_lt _ _ _ h1)] at hwt
      right; left
      exact ⟨(Option.some.inj hws).symm, (Option.some.inj hwt).symm⟩
    · rw [List.getElem?_set_ne hii] at hwt
      left; rw [hws] at hwt; exact (Option.some.inj hwt).symm
  | recvOk i0 j rest h1 h2 =>
    dsimp only at hwt
    by_cases hii : i0 = i
    · subst hii
      rw [h1] at hws
      rw [List.getElem?_set_self (getElem?_lt _ _ _ h1)] at hwt
      right; right; left
      exact ⟨j, rest, (Option.some.inj hws).symm, (Option.some.inj hwt).symm, h2, rfl⟩
    · rw [List.getElem?_set_ne hii] at hwt
      left; rw [hws] at hwt; exact (Option.some.inj hwt).symm
  | recvErr i0 h1 h2 h3 =>
    dsimp only at hwt
    by_cases hii : i0 = i
    · subst hii
      rw [h1] at hws
      rw [List.getElem?_set_self (getElem?_lt _ _ _ h1)] at hwt
      right; right; right; right
      exact ⟨(Option.some.inj hws).symm, (Option.some.inj hwt).symm, h2, h3⟩
    · rw [List.getElem?_set_ne hii] at hwt
      left; rw [hws] at hwt; exact (Option.some.inj hwt).symm
  | finish i0 j h1 =>
    dsimp only at hwt
    by_cases hii : i0 = i
    · subst hii
      rw [h1] at hws
      rw [List.getElem?_set_self (getElem?_lt _ _ _ h1)] at hwt
      right; right; right; left
      exact ⟨j, (Option.some.inj hws).symm, (Option.some.inj hwt).symm, rfl⟩
    · rw [List.getElem?_set_ne hii] at hwt
      left; rw [hws] at hwt; exact (Option.some.inj hwt).symm
  | joinW hd hlt hterm =>
    left; dsimp only at hwt; rw [hws] at hwt; exact (Option.some.inj hwt).symm

/-! ## Claim theorems over the sequential pool-side model -/

/-- C2: submitting after shutdown has begun — the sender has been taken —
fails with `PoolClosed` (the panic of `self.sender.as_ref().unwrap()`): the
call returns at once with the error, and never succeeds, so the job is
neither silently swallowed, enqueued, nor executed inline. -/
theorem execute_after_shutdown_fails_poolClosed (s : SysState) (j : Nat)
    (h : s.senderPresent = false) :
    executeFn s j = .error .PoolClosed ∧ ∀ t : SysState, executeFn s j ≠ .ok t := by
  refine ⟨by simp [executeFn, h], ?_⟩
  intro t
  simp [executeFn, h]

/-- C3: `ThreadPool::new(0)` fails with `InvalidConfiguration` (the
`assert!(size > 0)` panic, raised before any worker thread is created),
and for every positive size construction succeeds.  `size` is a `usize`,
so zero is the only non-positive value. -/
theorem new_rejects_zero_size (size : Nat) :
    (size = 0 → ThreadPool.new size = .error .InvalidConfiguration) ∧
    (0 < size → ∃ p : ThreadPool, ThreadPool.new size = .ok p) := by
  constructor
  · intro h; subst h; rfl
  · intro h
    exact ⟨{ workers := (List.range size).map Worker.new, senderPresent := true },
      by simp only [ThreadPool.new, if_pos h]⟩

/-- Taking every worker's thread handle preserves the worker ids: the ids
assigned at construction are stable across shutdown. -/
theorem joinWorkers_map_id (ws : List Worker) :
    (joinWorkers ws).1.map Worker.id = ws.map Worker.id := by
  induction ws with
  | nil => rfl
  | cons w tail ih =>
    cases hw : w.thread with
    | none => simp [joinWorkers, hw, ih]
    | some h =>
      by_cases hok : h.joinOk
      · simp [joinWorkers, hw, hok, ih]
      · simp [joinWorkers, hw, hok]

/-- C7: for every positive size, `ThreadPool::new(size)` produces exactly
`size` workers, each holding a live (present) thread handle, with ids
`0, 1, ..., size-1` assigned in construction order; and the ids are stable —
the drop/join pass does not change them. -/
theorem new_spawns_size_workers_with_range_ids (size : Nat) (h : 0 < size) :
    ∃ p : ThreadPool, ThreadPool.new size = .ok p ∧
      p.workers.length = size ∧
      p.workers.map Worker.id = List.range size ∧
      (∀ w ∈ p.workers, w.thread.isSome = true) ∧
      (ThreadPool.dropRun p).1.workers.map Worker.id = p.workers.map Worker.id := by
  have hnew : ThreadPool.new size =
      .ok { workers := (List.range size).map Worker.new, senderPresent := true } := by
    simp only [ThreadPool.new, if_pos h]
  refine ⟨_, hnew, by simp, ?_, ?_, ?_⟩
  · have hcomp : Worker.id ∘ Worker.new = id := funext fun i => rfl
    simp only [List.map_map, hcomp, List.map_id]
  · intro w hw
    simp only [List.mem_map] at hw
    obtain ⟨i, _, rfl⟩ := hw
    rfl
  · exact joinWorkers_map_id _

/-- A pass of the drop loop over workers whose handles were all already
taken touches nothing: no join happens, no fault is raised. -/
theorem joinWorkers_all_taken (ws : List Worker)
    (h : ∀ w ∈ ws, w.thread = none) : joinWorkers ws = (ws, [], none) := by
  induction ws with
  | nil => rfl
  | cons w tail ih =>
    have hw := h w (by simp)
    simp only [joinWorkers, hw]
    rw [ih fun v hv => h v (by simp [hv])]

/-- After a drop pass that did not fault, every worker's handle is taken. -/
theorem joinWorkers_taken_of_no_fault (ws : List Worker)
    (h : (joinWorkers ws).2.2 = none) :
    ∀ w ∈ (joinWorkers ws).1, w.thread = none := by
  induction ws with
  | nil => intro w hw; simp [joinWorkers] at hw
  | cons w tail ih =>
    cases hw : w.thread with
    | none =>
      simp only [joinWorkers, hw] at h ⊢
      intro v hv
      rcases List.mem_cons.mp hv with hv | hv
      · subst hv; exact hw
      · exact ih h v hv
    | some hh =>
      by_cases hok : hh.joinOk
      · simp only [joinWorkers, hw, hok, if_pos] at h ⊢
        intro v hv
        rcases List.mem_cons.mp hv with hv | hv
        · subst hv; rfl
        · exact ih h v hv
      · simp only [joinWorkers, hw, hok, if_neg, Bool.false_eq_true,
          not_false_eq_true] at h
        cases h

/-- C8: a worker's thread handle is taken at most once and shutdown is
idempotent from the pool's perspective: a completed fault-free drop leaves
every handle absent, and a drop pass over a pool whose handles are all
absent is a no-op — it joins nothing and raises no fault, not even
touching the worker list. -/
theorem drop_takes_handles_at_most_once (p : ThreadPool) :
    ((ThreadPool.dropRun p).2.2 = none →
      ∀ w ∈ (ThreadPool.dropRun p).1.workers, w.thread = none) ∧
    ((∀ w ∈ p.workers, w.thread = none) →
      ThreadPool.dropRun p =
        ({ workers := p.workers, senderPresent := false }, [], none)) := by
  constructor
  · intro h w hw
    exact joinWorkers_taken_of_no_fault p.workers h w hw
  · intro h
    simp only [ThreadPool.dropRun, joinWorkers_all_taken p.workers h]

/-- The ids the drop loop actually joins: workers whose handle is present. -/
def presentIds (ws : List Worker) : List Nat :=
  ws.filterMap fun w => if w.thread.isSome then some w.id else none

/-- A worker that joins without fault: its handle is either already absent
or joins normally. -/
def joinsOk (w : Worker) : Prop :=
  ∀ h : JoinHandle, w.thread = some h → h.joinOk = true

instance (w : Worker) : Decidable (joinsOk w) := by
  unfold joinsOk
  cases w.thread with
  | none => exact isTrue (by intro h hh; cases hh)
  | some h =>
    by_cases hok : h.joinOk = true
    · exact isTrue (by intro h2 hh2; cases hh2; exact hok)
    · exact isFalse (by intro hall; exact hok (hall h rfl))

/-- The drop loop up to the first failing worker: every worker before it is
processed (handle taken, joined if it was present), the failing worker's
handle is taken but its join panics with `WorkerJoinFailure`, and the loop
is abandoned — workers after it are left untouched. -/
theorem worker_eta_none (v : Worker) (h : v.thread = none) :
    ({ v with thread := none } : Worker) = v := by
  cases v with
  | mk vid vth =>
    simp only at h
    subst h
    rfl

theorem joinWorkers_stops_at_first_failure (pre : List Worker) (w : Worker)
    (post : List Worker) (hh : JoinHandle)
    (hpre : ∀ v ∈ pre, joinsOk v)
    (hw : w.thread = some hh) (hfail : hh.joinOk = false) :
    joinWorkers (pre ++ w :: post) =
      (pre.map (fun v => { v with thread := none }) ++
        ({ w with thread := none } :: post),
       presentIds pre, some .WorkerJoinFailure) := by
  induction pre with
  | nil =>
    simp only [List.nil_append, List.map_nil, presentIds, List.filterMap_nil]
    simp [joinWorkers, hw, hfail]
  | cons v tail ih =>
    have hv := hpre v (by simp)
    have htail := ih fun u hu => hpre u (by simp [hu])
    cases hvt : v.thread with
    | none =>
      simp only [List.cons_append, joinWorkers, hvt, List.append_eq]
      rw [htail]
      simp only [List.map_cons, worker_eta_none v hvt, presentIds,
        List.filterMap_cons, hvt, Option.isSome_none, Bool.false_eq_true,
        if_neg, List.cons_append]
      simp [presentIds]
    | some vh =>
      have hok : vh.joinOk = true := hv vh hvt
      simp only [List.cons_append, joinWorkers, hvt, hok, if_pos, List.append_eq]
      rw [htail]
      simp only [List.map_cons, presentIds, List.filterMap_cons, hvt,
        Option.isSome_some, if_pos, List.cons_append]

/-- C9: if a worker's thread cannot be joined during shutdown (its join
fails because the thread terminated abnormally), the drop surfaces
`WorkerJoinFailure` instead of hanging, and stops at that first failure:
the workers before it were joined (their present handles, in order), and
the workers after it are left untouched — not joined, handles still
present. -/
theorem shutdown_surfaces_first_join_failure (p : ThreadPool)
    (pre : List Worker) (w : Worker) (post : List Worker) (hh : JoinHandle)
    (hsplit : p.workers = pre ++ w :: post)
    (hpre : ∀ v ∈ pre, joinsOk v)
    (hw : w.thread = some hh) (hfail : hh.joinOk = false) :
    ThreadPool.dropRun p =
      ({ workers := pre.map (fun v => { v with thread := none }) ++
          ({ w with thread := none } :: post),
         senderPresent := false },
       presentIds pre, some .WorkerJoinFailure) := by
  simp only [ThreadPool.dropRun, hsplit,
    joinWorkers_stops_at_first_failure pre w post hh hpre hw hfail]

/-! ## Concrete witnesses

A complete run of a pool of size 1 over two jobs (more jobs than workers),
through shutdown; and a partial run of a pool of size 2 with one worker
executing and the other idle. -/

def sA : SysState :=
  { wstatus := [.terminated], queue := [], senderPresent := false,
    submitted := [10, 20], executed := [10, 20], dropStarted := true,
    joined := 1 }

theorem reachA : Reachable 1 sA := by
  refine Relation.ReflTransGen.head (Step.submit _ 10 rfl) ?_
  refine Relation.ReflTransGen.head (Step.submit _ 20 rfl) ?_
  refine Relation.ReflTransGen.head
    (Step.lock _ 0 (by decide) (no_claiming_of_all (by decide))) ?_
  refine Relation.ReflTransGen.head (Step.recvOk _ 0 10 [20] (by decide) rfl) ?_
  refine Relation.ReflTransGen.head (Step.finish _ 0 10 (by decide)) ?_
  refine Relation.ReflTransGen.head (Step.close _ rfl) ?_
  refine Relation.ReflTransGen.head
    (Step.lock _ 0 (by decide) (no_claiming_of_all (by decide))) ?_
  refine Relation.ReflTransGen.head (Step.recvOk _ 0 20 [] (by decide) rfl) ?_
  refine Relation.ReflTransGen.head (Step.finish _ 0 20 (by decide)) ?_
  refine Relation.ReflTransGen.head
    (Step.lock _ 0 (by decide) (no_claiming_of_all (by decide))) ?_
  refine Relation.ReflTransGen.head
    (Step.recvErr _ 0 (by decide) rfl rfl) ?_
  refine Relation.ReflTransGen.head (Step.joinW _ rfl (by decide) (by decide)) ?_
  exact Relation.ReflTransGen.refl

def sB : SysState :=
  { wstatus := [.executing 7, .running], queue := [], senderPresent := true,
    submitted := [7], executed := [], dropStarted := false, joined := 0 }

theorem reachB : Reachable 2 sB := by
  refine Relation.ReflTransGen.head (Step.submit _ 7 rfl) ?_
  refine Relation.ReflTransGen.head
    (Step.lock _ 0 (by decide) (no_claiming_of_all (by decide))) ?_
  refine Relation.ReflTransGen.head (Step.recvOk _ 0 7 [] (by decide) rfl) ?_
  exact Relation.ReflTransGen.refl

/-- Witness for C1: the size-1 pool run over jobs 10 and 20 reaches
shutdown with both jobs executed exactly once. -/
theorem submitted_jobs_executed_exactly_once_witness :
    (sA.executed : Multiset Nat) = (sA.submitted : Multiset Nat) ∧
      sA.executed.length = sA.submitted.length :=
  submitted_jobs_executed_exactly_once (by decide) reachA ⟨rfl, rfl⟩

/-- Witness for C4: in the completed run, a joined worker implies the
queue was closed first, and shutdown completion implies full execution. -/
theorem shutdown_closes_then_joins_in_order_witness :
    (sA.dropStarted = true ∧ sA.senderPresent = false) ∧
      (sA.executed : Multiset Nat) = (sA.submitted : Multiset Nat) :=
  ⟨(shutdown_closes_then_joins_in_order (by decide) reachA).1 (by decide),
   ((shutdown_closes_then_joins_in_order (by decide) reachA).2.2 ⟨rfl, rfl⟩).2⟩

def s10 : SysState :=
  { wstatus := [.running], queue := [5], senderPresent := true,
    submitted := [5], executed := [], dropStarted := false, joined := 0 }

/-- Witness for C10: on the freshly constructed pool of size 1 the sender
is present and `execute` enqueues exactly one job. -/
theorem sender_present_before_shutdown_witness :
    (initState 1).senderPresent = true ∧
      executeFn (initState 1) 5 = .ok s10 ∧ Step (initState 1) s10 :=
  sender_present_before_shutdown 5 Relation.ReflTransGen.refl rfl

/-- Witness for C6: with worker 0 executing job 7 and worker 1 idle, worker
1 can still acquire the receiver mutex. -/
theorem claim_mutex_never_held_during_execution_witness :
    Step sB { sB with wstatus := sB.wstatus.set 1 WStatus.claiming } :=
  (claim_mutex_never_held_during_execution reachB).2 0 1 7 (by decide) (by decide)
    (no_claiming_of_all (by decide))

def s5 : SysState :=
  { wstatus := [.claiming], queue := [7], senderPresent := true,
    submitted := [7], executed := [], dropStarted := false, joined := 0 }

def t5 : SysState :=
  { wstatus := [.executing 7], queue := [], senderPresent := true,
    submitted := [7], executed := [], dropStarted := false, joined := 0 }

/-- Witness for C5: a successful claim of job 7 is the (and only the)
`claim` edge of the worker state machine. -/
theorem worker_state_machine_witness :
    WStatus.executing 7 = WStatus.claiming ∨
    (WStatus.claiming = WStatus.running ∧ WStatus.executing 7 = WStatus.claiming) ∨
    (∃ j rest, WStatus.claiming = WStatus.claiming ∧
      WStatus.executing 7 = WStatus.executing j ∧
      s5.queue = j :: rest ∧ t5.queue = rest) ∨
    (∃ j, WStatus.claiming = WStatus.executing j ∧
      WStatus.executing 7 = WStatus.running ∧
      t5.executed = s5.executed ++ [j]) ∨
    (WStatus.claiming = WStatus.claiming ∧
      WStatus.executing 7 = WStatus.terminated ∧
      s5.queue = [] ∧ s5.senderPresent = false) :=
  worker_state_machine (Step.recvOk s5 0 7 [] (by decide) rfl) 0
    .claiming (.executing 7) (by decide) (by decide)

def sClosed : SysState :=
  { wstatus := [.terminated], queue := [], senderPresent := false,
    submitted := [], executed := [], dropStarted := true, joined := 1 }

/-- Witness for C2: submitting job 9 after the sender was taken fails with
`PoolClosed` and never succeeds. -/
theorem execute_after_shutdown_fails_poolClosed_witness :
    executeFn sClosed 9 = .error .PoolClosed ∧
      ∀ t : SysState, executeFn sClosed 9 ≠ .ok t :=
  execute_after_shutdown_fails_poolClosed sClosed 9 rfl

/-- Witness for C3: size 0 is rejected with `InvalidConfiguration`, size 3
succeeds. -/
theorem new_rejects_zero_size_witness :
    ThreadPool.new 0 = .error .InvalidConfiguration ∧
      ∃ p : ThreadPool, ThreadPool.new 3 = .ok p :=
  ⟨(new_rejects_zero_size 0).1 rfl, (new_rejects_zero_size 3).2 (by decide)⟩

/-- Witness for C7: a pool of size 3 has three live workers with ids
0, 1, 2, stable across shutdown. -/
theorem new_spawns_size_workers_with_range_ids_witness :
    ∃ p : ThreadPool, ThreadPool.new 3 = .ok p ∧
      p.workers.length = 3 ∧
      p.workers.map Worker.id = List.range 3 ∧
      (∀ w ∈ p.workers, w.thread.isSome = true) ∧
      (ThreadPool.dropRun p).1.workers.map Worker.id = p.workers.map Worker.id :=
  new_spawns_size_workers_with_range_ids 3 (by decide)

def p8 : ThreadPool :=
  { workers := [⟨0, some ⟨true⟩⟩, ⟨1, some ⟨true⟩⟩], senderPresent := true }

def p8taken : ThreadPool :=
  { workers := [⟨0, none⟩, ⟨1, none⟩], senderPresent := false }

/-- Witness for C8: a fault-free drop of a two-worker pool takes both
handles, and a drop pass over the already-taken pool is a no-op. -/
theorem drop_takes_handles_at_most_once_witness :
    (∀ w ∈ (ThreadPool.dropRun p8).1.workers, w.thread = none) ∧
      ThreadPool.dropRun p8taken =
        ({ workers := p8taken.workers, senderPresent := false }, [], none) :=
  ⟨(drop_takes_handles_at_most_once p8).1 (by decide),
   (drop_takes_handles_at_most_once p8taken).2 (by decide)⟩

def p9 : ThreadPool :=
  { workers := [⟨0, some ⟨true⟩⟩, ⟨1, some ⟨false⟩⟩, ⟨2, some ⟨true⟩⟩],
    senderPresent := true }

/-- Witness for C9: worker 1's thread cannot be joined, so the drop joins
worker 0, surfaces `WorkerJoinFailure` at worker 1, and leaves worker 2
untouched with its handle still present. -/
theorem shutdown_surfaces_first_join_failure_witness :
    ThreadPool.dropRun p9 =
      ({ workers := [⟨0, none⟩, ⟨1, none⟩, ⟨2, some ⟨true⟩⟩],
         senderPresent := false }, [0], some .WorkerJoinFailure) :=
  shutdown_surfaces_first_join_failure p9 [⟨0, some ⟨true⟩⟩] ⟨1, some ⟨false⟩⟩
    [⟨2, some ⟨true⟩⟩] ⟨false⟩ rfl (by decide) rfl rfl

end RustServer
